import Mathlib

/-!
Verification of the StrategySuite project-state model and its
update/synchronization contract, as implemented by the repository
(React front end `App.tsx` / legacy `index.tsx`, Firestore storage
service `storageService.ts`, Express proxy `server/index.js`).

The TypeScript data model and the pure updater functions are embedded
shallowly: JS strings are Lean `String`s, JS numbers holding epoch
milliseconds or list positions are `Nat`, JS array indices that can be
`-1` (from `Array.findIndex`) are `Int`, and the framework map
(a plain JS object keyed by framework key) is a total function
`String → List FrameworkItem` where an absent key reads as `[]`.
Asynchronous behaviour (the shared debounce timer, the Firestore
round trip with its 10-second race) is embedded as explicit state
passing over a timeline of natural-number instants.
-/

namespace StrategySuite

/-- Atomic strategic input, `Idea` in `types.ts`. -/
structure Idea where
  id : String
  text : String
  isAiGenerated : Bool
  isSelected : Bool
  order : Nat
deriving Repr, DecidableEq, Inhabited

/-- One uploaded-document record, the `businessFiles` element type in `types.ts`. -/
structure BusinessFile where
  id : String
  name : String
  content : String
deriving Repr, DecidableEq, Inhabited

/-- Named framework category, `FrameworkItem` in `types.ts`. -/
structure FrameworkItem where
  id : String
  title : String
  color : String
  ideas : List Idea
  justification : String
deriving Repr, DecidableEq, Inhabited

/-- The framework map `{ [key: string]: FrameworkItem[] }` of `types.ts`,
modelled as a total function; a key that was never written reads as `[]`. -/
abbrev Frameworks := String → List FrameworkItem

/-- Aggregate root, `ProjectState` in `types.ts`; `lastUpdated` holds epoch
milliseconds (`Date.now()`). -/
structure ProjectState where
  id : String
  name : String
  lastUpdated : Nat
  businessDetails : String
  businessFiles : List BusinessFile
  frameworks : Frameworks

/-- The in-memory Project Store of `AppShell` in `App.tsx`: the `projects`
state list plus the `activeProjectId` selection. -/
structure Store where
  projects : List ProjectState
  activeProjectId : Option String

/-- JS `s.substring(start, stop)` for `start ≤ stop`, on the character list. -/
def jsSubstring (s : String) (start stop : Nat) : String :=
  ⟨(s.data.drop start).take (stop - start)⟩

/-- JS `s.trim()`: strip leading and trailing whitespace. -/
def jsTrim (s : String) : String :=
  ⟨((s.data.dropWhile Char.isWhitespace).reverse.dropWhile Char.isWhitespace).reverse⟩

/-- JS `Array.prototype.findIndex`: the first index satisfying the
predicate, or `-1` when no element does. -/
def jsFindIndex (pred : α → Bool) (l : List α) : Int :=
  match l.findIdx? pred with
  | some i => (i : Int)
  | none => -1

/-- JS object write `obj[k] = v` on the framework map. -/
def setKey (f : Frameworks) (k : String) (v : List FrameworkItem) : Frameworks :=
  fun q => if q = k then v else f q

/-- `updateActiveProject` (`App.tsx` lines 81-91): applies the pure updater
to the project matching `activeProjectId`, then overwrites `lastUpdated`
with the current clock (`Date.now()`, the `now` argument) unconditionally;
a no-op when no project is active. The debounced-save side effect it also
triggers is modelled separately by `saveProjectDebounced` below. -/
def updateActiveProject (now : Nat) (updater : ProjectState → ProjectState) (s : Store) : Store :=
  match s.activeProjectId with
  | none => s
  | some aid =>
    { s with projects := s.projects.map fun p =>
        if p.id = aid then { updater p with lastUpdated := now } else p }

/-- C1: `updateActiveProject` replaces the active project's `lastUpdated`
with the current clock value, unconditionally, after the transformation;
hence the timestamp is monotonically non-decreasing under a non-decreasing
clock and strictly increases when the clock has advanced. -/
theorem updateActiveProject_refreshes_lastUpdated (now : Nat)
    (f : ProjectState → ProjectState) (s : Store) (aid : String)
    (hact : s.activeProjectId = some aid)
    (p : ProjectState) (hp : p ∈ s.projects) (hid : p.id = aid) :
    ∃ q ∈ (updateActiveProject now f s).projects,
      q = { f p with lastUpdated := now } ∧
      q.lastUpdated = now ∧
      (p.lastUpdated ≤ now → p.lastUpdated ≤ q.lastUpdated) ∧
      (p.lastUpdated < now → p.lastUpdated < q.lastUpdated) := by
  refine ⟨{ f p with lastUpdated := now }, ?_, rfl, rfl, fun h => h, fun h => h⟩
  simp only [updateActiveProject, hact]
  have : ({ f p with lastUpdated := now } : ProjectState)
      = (fun p => if p.id = aid then { f p with lastUpdated := now } else p) p := by
    simp [hid]
  rw [this]
  exact List.mem_map_of_mem _ hp

/-- Example project used by the closed witnesses below. -/
def wProject : ProjectState :=
  { id := "idA", name := "Acme", lastUpdated := 100, businessDetails := "",
    businessFiles := [], frameworks := fun _ => [] }

/-- Example store holding `wProject` as the active project. -/
def wStore : Store :=
  { projects := [wProject], activeProjectId := some "idA" }

/-- Witness for C1 at a concrete store, updater and clock instant. -/
theorem updateActiveProject_refreshes_lastUpdated_witness :
    wStore.activeProjectId = some "idA" ∧ wProject ∈ wStore.projects ∧ wProject.id = "idA" ∧
    ∃ q ∈ (updateActiveProject 250 (fun p => { p with name := "Acme2" }) wStore).projects,
      q = { (fun p => { p with name := "Acme2" }) wProject with lastUpdated := 250 } ∧
      q.lastUpdated = 250 ∧
      (wProject.lastUpdated ≤ 250 → wProject.lastUpdated ≤ q.lastUpdated) ∧
      (wProject.lastUpdated < 250 → wProject.lastUpdated < q.lastUpdated) :=
  ⟨rfl, List.mem_singleton.mpr rfl, rfl,
    updateActiveProject_refreshes_lastUpdated 250 (fun p => { p with name := "Acme2" })
      wStore "idA" rfl wProject (List.mem_singleton.mpr rfl) rfl⟩

/-- State of the debounced-save machinery of `App.tsx`: `pending` models the
single shared `saveTimeoutRef` handle (line 34) as the scheduled fire time
together with the captured payload, and `saved` records the `saveProject`
remote calls actually issued, oldest first. -/
structure DebounceState where
  pending : Option (Nat × ProjectState)
  saved : List ProjectState

/-- Initial debounce state: `saveTimeoutRef.current = null`, no saves issued. -/
def DebounceState.init : DebounceState := ⟨none, []⟩

/-- Timer semantics: when the wall clock reaches time `t`, a pending timeout
whose fire time has arrived runs its callback, issuing the remote save. -/
def fireIfDue (t : Nat) (st : DebounceState) : DebounceState :=
  match st.pending with
  | some (ft, q) => if ft ≤ t then { pending := none, saved := st.saved ++ [q] } else st
  | none => st

/-- `saveProjectDebounced` (`App.tsx` lines 67-79) invoked at instant `t`:
`clearTimeout` discards whatever timeout is pending (a timer already due has
fired before this event runs), then `setTimeout(…, 1000)` schedules a save of
the captured `project` for `t + 1000`. The timeout handle is shared, not
keyed by project. -/
def saveProjectDebounced (t : Nat) (project : ProjectState) (st : DebounceState) : DebounceState :=
  let st1 := fireIfDue t st
  { st1 with pending := some (t + 1000, project) }

/-- Runs a time-ordered sequence of `saveProjectDebounced` calls. -/
def runSchedules (evts : List (Nat × ProjectState)) (st : DebounceState) : DebounceState :=
  match evts with
  | [] => st
  | (t, p) :: rest => runSchedules rest (saveProjectDebounced t p st)

/-- A full timeline: the scheduled calls, then quiet until `endTime`. -/
def debounceRun (evts : List (Nat × ProjectState)) (endTime : Nat) : DebounceState :=
  fireIfDue endTime (runSchedules evts DebounceState.init)

/-- Each event happens no earlier than the previous one and strictly inside
the previous event's one-second debounce window. -/
def withinWindow : Nat → List (Nat × ProjectState) → Bool
  | _, [] => true
  | tPrev, (t, _) :: rest => (tPrev ≤ t && t < tPrev + 1000) && withinWindow t rest

/-- The final scheduled event of a nonempty timeline. -/
def lastEvent (e : Nat × ProjectState) (evts : List (Nat × ProjectState)) : Nat × ProjectState :=
  evts.foldl (fun _ x => x) e

theorem lastEvent_cons (e f : Nat × ProjectState) (evts : List (Nat × ProjectState)) :
    lastEvent e (f :: evts) = lastEvent f evts := rfl

/-- The timeout entry a `saveProjectDebounced` call at event `e` leaves pending. -/
def scheduledOf (e : Nat × ProjectState) : Option (Nat × ProjectState) :=
  some (e.1 + 1000, e.2)

theorem runSchedules_within (evts : List (Nat × ProjectState)) :
    ∀ (tPrev : Nat) (pPrev : ProjectState) (st : DebounceState),
      st.pending = some (tPrev + 1000, pPrev) →
      withinWindow tPrev evts = true →
      runSchedules evts st = { st with pending := scheduledOf (lastEvent (tPrev, pPrev) evts) } := by
  induction evts with
  | nil =>
    intro tPrev pPrev st hpend _
    simp [runSchedules, lastEvent, scheduledOf, ← hpend]
  | cons e rest ih =>
    intro tPrev pPrev st hpend hwin
    obtain ⟨t, p⟩ := e
    simp only [withinWindow, Bool.and_eq_true, decide_eq_true_eq] at hwin
    obtain ⟨⟨hle, hlt⟩, hwin⟩ := hwin
    have hfire : fireIfDue t st = st := by
      rw [fireIfDue, hpend]
      exact if_neg (by omega)
    have hsched : saveProjectDebounced t p st = { st with pending := some (t + 1000, p) } := by
      rw [saveProjectDebounced, hfire]
    rw [runSchedules, hsched, ih t p _ rfl hwin, lastEvent_cons]

/-- C2: trailing-edge debounce coalescing. Any nonempty burst of
`saveProjectDebounced` calls in which each call lands strictly inside the
previous call's one-second window produces, once the clock passes the final
window, exactly one remote save, and its payload is the project state passed
to the final call. In particular the claimed scenario (calls at 0ms, 200ms,
400ms, then 1200ms of quiet) issues exactly one save carrying the state
after the third call. -/
theorem saveProjectDebounced_coalesces (t0 : Nat) (p0 : ProjectState)
    (evts : List (Nat × ProjectState)) (T : Nat)
    (hwin : withinWindow t0 evts = true)
    (hT : (lastEvent (t0, p0) evts).1 + 1000 ≤ T) :
    (debounceRun ((t0, p0) :: evts) T).saved = [(lastEvent (t0, p0) evts).2] ∧
    (∀ p1 p2 p3 : ProjectState,
      (debounceRun [(0, p1), (200, p2), (400, p3)] 1600).saved = [p3]) := by
  constructor
  · have h0 : saveProjectDebounced t0 p0 DebounceState.init =
        { pending := some (t0 + 1000, p0), saved := [] } := rfl
    have hrun := runSchedules_within evts t0 p0
      { pending := some (t0 + 1000, p0), saved := [] } rfl hwin
    rw [debounceRun, runSchedules, h0, hrun]
    simp [fireIfDue, scheduledOf, hT]
  · intro p1 p2 p3
    simp [debounceRun, runSchedules, saveProjectDebounced, fireIfDue, DebounceState.init]

/-- Second example project, used as a distinct-id payload. -/
def wProjectB : ProjectState :=
  { id := "idB", name := "Beta", lastUpdated := 300, businessDetails := "",
    businessFiles := [], frameworks := fun _ => [] }

/-- Third example project. -/
def wProjectC : ProjectState :=
  { id := "idC", name := "Gamma", lastUpdated := 400, businessDetails := "",
    businessFiles := [], frameworks := fun _ => [] }

/-- Witness for C2: the concrete 0ms/200ms/400ms burst followed by quiet
until 1600ms saves exactly the final payload. -/
theorem saveProjectDebounced_coalesces_witness :
    withinWindow 0 [(200, wProjectB), (400, wProjectC)] = true ∧
    (lastEvent (0, wProject) [(200, wProjectB), (400, wProjectC)]).1 + 1000 ≤ 1600 ∧
    (debounceRun [(0, wProject), (200, wProjectB), (400, wProjectC)] 1600).saved
      = [(lastEvent (0, wProject) [(200, wProjectB), (400, wProjectC)]).2] :=
  ⟨by decide, by decide,
    (saveProjectDebounced_coalesces 0 wProject [(200, wProjectB), (400, wProjectC)] 1600
      (by decide) (by decide)).1⟩

/-- Counterexample to C3 as stated: the timeout handle is shared, so
scheduling a debounced save for project `idB` at 500ms cancels the still
pending save of the distinct project `idA` scheduled at 0ms. At 2000ms -
well past project `idA`'s 1000ms fire time - the only remote save ever
issued is the one for `idB`; no save for `idA` exists. -/
theorem debounce_not_per_project_cex :
    (debounceRun [(0, wProject), (500, wProjectB)] 2000).saved.map ProjectState.id = ["idB"] ∧
    "idA" ∉ (debounceRun [(0, wProject), (500, wProjectB)] 2000).saved.map ProjectState.id := by
  constructor
  · rfl
  · decide

/-- C3 amended: the debounce timer is a single shared handle, not keyed per
project. Any `saveProjectDebounced` call made before the pending timeout is
due discards that pending save - whatever project it was for - and leaves
only the new call's save pending; the displaced payload is never added to
the issued-saves list by this call. -/
theorem saveProjectDebounced_cancels_pending (t2 ft : Nat) (p q : ProjectState)
    (saved : List ProjectState) (h : t2 < ft) :
    saveProjectDebounced t2 q ⟨some (ft, p), saved⟩ = ⟨some (t2 + 1000, q), saved⟩ := by
  have hfire : fireIfDue t2 ⟨some (ft, p), saved⟩ = ⟨some (ft, p), saved⟩ := by
    simp only [fireIfDue]
    exact if_neg (by omega)
  simp only [saveProjectDebounced, hfire]

/-- Witness for the amended C3: project `idB`, scheduled at 500ms while
project `idA`'s save is pending for 1000ms, displaces it without saving it. -/
theorem saveProjectDebounced_cancels_pending_witness :
    500 < 1000 ∧
    saveProjectDebounced 500 wProjectB ⟨some (1000, wProject), []⟩
      = ⟨some (500 + 1000, wProjectB), []⟩ :=
  ⟨by decide, saveProjectDebounced_cancels_pending 500 1000 wProject wProjectB [] (by decide)⟩

theorem length_mk (l : List Char) : (String.mk l).length = l.length := rfl

theorem length_eq_data (s : String) : s.length = s.data.length := rfl

theorem jsSubstring_zero_length (s : String) (n : Nat) :
    (jsSubstring s 0 n).length = min n s.length := by
  rw [jsSubstring, length_mk, Nat.sub_zero, List.drop_zero, List.length_take, length_eq_data]

/-- The updater that `handleFileUpload` (`App.tsx` lines 93-111, identically
`index.tsx` lines 97-115) passes to `updateActiveProject` for one uploaded
file: the record is appended with its content truncated by
`content.substring(0, 5000)`; `freshId` stands for the random id. -/
def handleFileUpload (freshId fileName content : String) (p : ProjectState) : ProjectState :=
  { p with businessFiles :=
      p.businessFiles ++ [⟨freshId, fileName, jsSubstring content 0 5000⟩] }

/-- The updater behind the document-content textarea of the legacy `About`
view (`index.tsx` lines 527-537): it stores the edited text verbatim, with
no re-truncation. -/
def editFileContent (fileId newContent : String) (p : ProjectState) : ProjectState :=
  { p with businessFiles :=
      p.businessFiles.map fun f => if f.id = fileId then { f with content := newContent } else f }

/-- Example project holding one already-capped document record. -/
def wDocProject : ProjectState :=
  { id := "idD", name := "Docs", lastUpdated := 0, businessDetails := "",
    businessFiles := [⟨"f1", "notes.txt", "ok"⟩], frameworks := fun _ => [] }

/-- A 5001-character text, one character over the documented cap. -/
def overCapText : String := ⟨List.replicate 5001 'a'⟩

/-- A 7000-character upload, the length used by the spec's ingestion test. -/
def sevenThousandXs : String := ⟨List.replicate 7000 'x'⟩

theorem sevenThousandXs_length : sevenThousandXs.length = 7000 := by
  rw [length_eq_data]
  show (List.replicate 7000 'x').length = 7000
  rw [List.length_replicate]

/-- Counterexample to C4 as stated: editing the content of the stored
document `f1` through the `About` textarea updater with a 5001-character
text leaves a stored record whose content length is 5001 > 5000, so a later
operation can push a record past the cap. -/
theorem editFileContent_exceeds_cap_cex :
    (editFileContent "f1" overCapText wDocProject).businessFiles.map
        (fun f => f.content.length) = [5001] ∧
    5000 < 5001 := by
  constructor
  · have h1 : (editFileContent "f1" overCapText wDocProject).businessFiles.map
        (fun f => f.content.length) = [overCapText.length] := by
      simp [editFileContent, wDocProject]
    rw [h1, overCapText, length_mk, List.length_replicate]
  · decide

/-- C4 amended: ingestion always truncates - the uploaded record's content
length is `min 5000` of the input length (7000 characters store as exactly
5000) and previously stored records are untouched - but the cap is only an
ingestion-time guarantee: the legacy content-edit operation can later push
a stored record past it (see the counterexample). -/
theorem handleFileUpload_truncates (freshId fileName content : String) (p : ProjectState) :
    (handleFileUpload freshId fileName content p).businessFiles.map (fun f => f.content.length)
      = p.businessFiles.map (fun f => f.content.length) ++ [min 5000 content.length] ∧
    min 5000 content.length ≤ 5000 ∧
    (handleFileUpload "d" "doc" sevenThousandXs wProject).businessFiles.map
        (fun f => f.content.length) = [5000] := by
  refine ⟨?_, Nat.min_le_left _ _, ?_⟩
  · simp only [handleFileUpload, List.map_append, List.map_cons, List.map_nil]
    rw [jsSubstring_zero_length]
  · have h2 : (jsSubstring sevenThousandXs 0 5000).length = 5000 := by
      rw [jsSubstring_zero_length, sevenThousandXs_length]
      omega
    simp [handleFileUpload, wProject, h2]

/-- One entry of the static framework catalog (`constants.ts`). -/
structure FrameworkConfig where
  id : String
  title : String
  color : String
deriving Repr, DecidableEq

/-- `FRAMEWORK_CONFIGS` from `constants.ts`: the four frameworks, keyed by
the `SectionKey` string values, each with its fixed category list. -/
def FRAMEWORK_CONFIGS : List (String × List FrameworkConfig) :=
  [("pestle",
    [⟨"political", "Political", "#E0F2FE"⟩,
     ⟨"economic", "Economic", "#FEF9C3"⟩,
     ⟨"social", "Social", "#FCE7F3"⟩,
     ⟨"technological", "Technological", "#DCFCE7"⟩,
     ⟨"legal", "Legal", "#EDE9FE"⟩,
     ⟨"environmental", "Environmental", "#FFEDD5"⟩]),
   ("porters",
    [⟨"rivalry", "Competitive Rivalry", "#FEE2E2"⟩,
     ⟨"suppliers", "Supplier Power", "#DBEAFE"⟩,
     ⟨"buyers", "Buyer Power", "#F3E8FF"⟩,
     ⟨"substitution", "Threat of Substitution", "#ECFDF5"⟩,
     ⟨"new_entry", "Threat of New Entry", "#FFF7ED"⟩]),
   ("marketing",
    [⟨"product", "Product", "#E0F2FE"⟩,
     ⟨"price", "Price", "#FEF9C3"⟩,
     ⟨"place", "Place", "#DCFCE7"⟩,
     ⟨"promotion", "Promotion", "#FCE7F3"⟩]),
   ("swot",
    [⟨"strengths", "Strengths", "#DCFCE7"⟩,
     ⟨"weaknesses", "Weaknesses", "#FEE2E2"⟩,
     ⟨"opportunities", "Opportunities", "#E0F2FE"⟩,
     ⟨"threats", "Threats", "#FEF9C3"⟩])]

/-- The `reduce` in `handleCreateProject` (`App.tsx` lines 175-184): every
catalog key is written with its category list instantiated to fresh
`FrameworkItem`s carrying empty idea lists and empty justifications. -/
def newProjectFrameworks : Frameworks :=
  FRAMEWORK_CONFIGS.foldl
    (fun acc kc => setKey acc kc.1 (kc.2.map fun cfg => ⟨cfg.id, cfg.title, cfg.color, [], ""⟩))
    (fun _ => [])

/-- The `newProject` object literal of `handleCreateProject` (`App.tsx`
lines 169-185); `freshId` stands for the random id, `now` for `Date.now()`. -/
def newProjectOf (freshId : String) (now : Nat) (name : String) : ProjectState :=
  { id := freshId, name := jsTrim name, lastUpdated := now, businessDetails := "",
    businessFiles := [], frameworks := newProjectFrameworks }

/-- `handleCreateProject` (`App.tsx` lines 165-198): rejected before any
state change when the name trims to empty; otherwise the new project is
prepended to the list and becomes the active project. -/
def handleCreateProject (freshId : String) (now : Nat) (name : String) (s : Store) : Store :=
  if jsTrim name = "" then s
  else
    { projects := newProjectOf freshId now name :: s.projects,
      activeProjectId := some (newProjectOf freshId now name).id }

/-- C6: creating a project with a name that trims to nonempty prepends a new
`ProjectState` with the fresh id, the trimmed name, the current timestamp,
empty description and document list, and a framework map holding exactly the
four catalog keys ("pestle", "porters", "marketing", "swot") with the
catalog's category counts (6, 5, 4, 4), every category starting with empty
ideas and empty justification; any non-catalog key is absent (reads as
empty). A name that trims to empty leaves the store unchanged. -/
theorem handleCreateProject_spec (freshId : String) (now : Nat) (name : String) (s : Store) :
    (jsTrim name = "" → handleCreateProject freshId now name s = s) ∧
    (jsTrim name ≠ "" →
      (handleCreateProject freshId now name s).projects
          = newProjectOf freshId now name :: s.projects ∧
      (handleCreateProject freshId now name s).activeProjectId
          = some (newProjectOf freshId now name).id ∧
      (newProjectOf freshId now name).id = freshId ∧
      (newProjectOf freshId now name).name = jsTrim name ∧
      (newProjectOf freshId now name).lastUpdated = now ∧
      (newProjectOf freshId now name).businessDetails = "" ∧
      (newProjectOf freshId now name).businessFiles = [] ∧
      FRAMEWORK_CONFIGS.map Prod.fst = ["pestle", "porters", "marketing", "swot"] ∧
      FRAMEWORK_CONFIGS.map (fun kc => kc.2.length) = [6, 5, 4, 4] ∧
      (∀ kc ∈ FRAMEWORK_CONFIGS,
        ((newProjectOf freshId now name).frameworks kc.1).length = kc.2.length ∧
        ∀ it ∈ (newProjectOf freshId now name).frameworks kc.1,
          it.ideas = [] ∧ it.justification = "") ∧
      (∀ k, k ∉ FRAMEWORK_CONFIGS.map Prod.fst →
        (newProjectOf freshId now name).frameworks k = [])) := by
  constructor
  · intro h
    rw [handleCreateProject, if_pos h]
  · intro h
    refine ⟨?_, ?_, rfl, rfl, rfl, rfl, rfl, rfl, rfl, ?_, ?_⟩
    · rw [handleCreateProject, if_neg h]
    · rw [handleCreateProject, if_neg h]
    · intro kc hkc
      show (newProjectFrameworks kc.1).length = kc.2.length ∧
        ∀ it ∈ newProjectFrameworks kc.1, it.ideas = [] ∧ it.justification = ""
      fin_cases hkc <;> exact ⟨by decide, by decide⟩
    · intro k hk
      show newProjectFrameworks k = []
      simp only [FRAMEWORK_CONFIGS, List.map_cons, List.map_nil, List.mem_cons,
        List.not_mem_nil, or_false, not_or] at hk
      obtain ⟨h1, h2, h3, h4⟩ := hk
      simp [newProjectFrameworks, FRAMEWORK_CONFIGS, List.foldl, setKey, h1, h2, h3, h4]

/-- Witness for C6: creating "  Acme  " in the example store. -/
theorem handleCreateProject_spec_witness :
    jsTrim "  Acme  " ≠ "" ∧
    ((handleCreateProject "fresh1" 42 "  Acme  " wStore).projects
        = newProjectOf "fresh1" 42 "  Acme  " :: wStore.projects ∧
     (handleCreateProject "fresh1" 42 "  Acme  " wStore).activeProjectId
        = some (newProjectOf "fresh1" 42 "  Acme  ").id ∧
     (newProjectOf "fresh1" 42 "  Acme  ").id = "fresh1" ∧
     (newProjectOf "fresh1" 42 "  Acme  ").name = jsTrim "  Acme  " ∧
     (newProjectOf "fresh1" 42 "  Acme  ").lastUpdated = 42 ∧
     (newProjectOf "fresh1" 42 "  Acme  ").businessDetails = "" ∧
     (newProjectOf "fresh1" 42 "  Acme  ").businessFiles = [] ∧
     FRAMEWORK_CONFIGS.map Prod.fst = ["pestle", "porters", "marketing", "swot"] ∧
     FRAMEWORK_CONFIGS.map (fun kc => kc.2.length) = [6, 5, 4, 4] ∧
     (∀ kc ∈ FRAMEWORK_CONFIGS,
       ((newProjectOf "fresh1" 42 "  Acme  ").frameworks kc.1).length = kc.2.length ∧
       ∀ it ∈ (newProjectOf "fresh1" 42 "  Acme  ").frameworks kc.1,
         it.ideas = [] ∧ it.justification = "") ∧
     (∀ k, k ∉ FRAMEWORK_CONFIGS.map Prod.fst →
       (newProjectOf "fresh1" 42 "  Acme  ").frameworks k = [])) :=
  ⟨by decide, (handleCreateProject_spec "fresh1" 42 "  Acme  " wStore).2 (by decide)⟩

theorem list_set_self {α : Type} (l : List α) (i : Nat) (a : α) (h : l[i]? = some a) :
    l.set i a = l := by
  induction l generalizing i with
  | nil => simp at h
  | cons x xs ih =>
    cases i with
    | zero =>
      simp at h
      simp [h]
    | succ j =>
      simp at h ⊢
      exact ih j h

theorem setKey_same (f : Frameworks) (k : String) (v : List FrameworkItem) :
    setKey f k v k = v := by
  simp [setKey]

theorem setKey_self (f : Frameworks) (k : String) : setKey f k (f k) = f := by
  funext q
  by_cases h : q = k <;> simp [setKey, h]

/-- The batch of new `Idea`s built by `generateIdeas` (`App.tsx` lines
146-152) from the suggestion strings: `suggestions.map((text, i) => …)`,
each flagged AI-generated, unselected, suffixed " (AI)", with order
`base + i` where `base` is the target item's current idea count. -/
def aiIdeasOf (freshId : Nat → String) (base : Nat) (suggestions : List String) : List Idea :=
  suggestions.enum.map fun pair =>
    { id := freshId pair.1, text := pair.2 ++ " (AI)", isAiGenerated := true,
      isSelected := false, order := base + pair.1 }

/-- The updater `generateIdeas` (`App.tsx` lines 142-156) passes to
`updateActiveProject` once the backend has responded: the new ideas are
appended to the target item's list. In JS a missing item index makes the
updater throw into the surrounding catch, leaving the store unchanged;
that case is modelled as returning `p`. -/
theorem frameworks_mk (p : ProjectState) (F : Frameworks) :
    ({ p with frameworks := F } : ProjectState).frameworks = F := rfl

/-- The framework item `generateIdeasMerge` stores at the target index. -/
def mergedItem (freshId : Nat → String) (suggestions : List String) (item : FrameworkItem) :
    FrameworkItem :=
  { item with ideas := item.ideas ++ aiIdeasOf freshId item.ideas.length suggestions }

def generateIdeasMerge (freshId : Nat → String) (frameworkKey itemId : String)
    (suggestions : List String) (p : ProjectState) : ProjectState :=
  let items := p.frameworks frameworkKey
  let idx := items.findIdx fun i => i.id = itemId
  match items[idx]? with
  | none => p
  | some item =>
    { p with frameworks := setKey p.frameworks frameworkKey (items.set idx (mergedItem freshId suggestions item)) }

theorem generateIdeasMerge_eq (fresh : Nat → String) (fk itemId : String)
    (sugs : List String) (p : ProjectState) (idx : Nat) (item : FrameworkItem)
    (hfind : (p.frameworks fk).findIdx? (fun i => i.id = itemId) = some idx)
    (hitem : (p.frameworks fk)[idx]? = some item) :
    generateIdeasMerge fresh fk itemId sugs p =
      { p with frameworks := setKey p.frameworks fk ((p.frameworks fk).set idx (mergedItem fresh sugs item)) } := by
  have hidx : (p.frameworks fk).findIdx (fun i => i.id = itemId) = idx :=
    (List.findIdx?_eq_some_iff_findIdx_eq.mp hfind).2
  simp only [generateIdeasMerge, hidx, hitem]

/-- C5: merging a batch of `k` suggestion strings into a framework item that
currently has `N` ideas (through the single `updateActiveProject` call made
by `generateIdeas`) appends exactly `k` new ideas at the end in batch order,
each AI-flagged, unselected, suffixed " (AI)", with order values
`N, N+1, …, N+k-1`; the whole batch sets `lastUpdated` to the single current
clock value `now` - once, not once per idea - and no other framework item
is touched. -/
theorem generateIdeas_spec (now : Nat) (fresh : Nat → String) (fk itemId : String)
    (sugs : List String) (s : Store) (aid : String) (p : ProjectState)
    (idx : Nat) (item : FrameworkItem)
    (hact : s.activeProjectId = some aid) (hp : p ∈ s.projects) (hid : p.id = aid)
    (hfind : (p.frameworks fk).findIdx? (fun i => i.id = itemId) = some idx)
    (hitem : (p.frameworks fk)[idx]? = some item) :
    ∃ q ∈ (updateActiveProject now (generateIdeasMerge fresh fk itemId sugs) s).projects,
      q.lastUpdated = now ∧
      (∀ j, j ≠ idx → (q.frameworks fk)[j]? = (p.frameworks fk)[j]?) ∧
      ∃ item2, (q.frameworks fk)[idx]? = some item2 ∧
        item2.id = item.id ∧ item2.title = item.title ∧
        item2.justification = item.justification ∧
        item2.ideas.length = item.ideas.length + sugs.length ∧
        item2.ideas.take item.ideas.length = item.ideas ∧
        (∀ i, i < sugs.length →
          item2.ideas[item.ideas.length + i]? =
            some { id := fresh i, text := sugs.getD i "" ++ " (AI)", isAiGenerated := true,
                   isSelected := false, order := item.ideas.length + i }) := by
  have hlt : idx < (p.frameworks fk).length := (List.getElem?_eq_some.mp hitem).1
  have hmerge := generateIdeasMerge_eq fresh fk itemId sugs p idx item hfind hitem
  refine ⟨{ generateIdeasMerge fresh fk itemId sugs p with lastUpdated := now }, ?_, rfl, ?_, ?_⟩
  · simp only [updateActiveProject, hact]
    have hfun : ({ generateIdeasMerge fresh fk itemId sugs p with lastUpdated := now } : ProjectState)
        = (fun r => if r.id = aid then { generateIdeasMerge fresh fk itemId sugs r with
            lastUpdated := now } else r) p := by
      simp [hid]
    rw [hfun]
    exact List.mem_map_of_mem _ hp
  · intro j hj
    show ((generateIdeasMerge fresh fk itemId sugs p).frameworks fk)[j]? = (p.frameworks fk)[j]?
    rw [hmerge, frameworks_mk, setKey_same]
    exact List.getElem?_set_ne (Ne.symm hj)
  · refine ⟨mergedItem fresh sugs item, ?_, rfl, rfl, rfl, ?_, ?_, ?_⟩
    · show ((generateIdeasMerge fresh fk itemId sugs p).frameworks fk)[idx]? = _
      rw [hmerge, frameworks_mk, setKey_same]
      exact List.getElem?_set_self hlt
    · show (item.ideas ++ aiIdeasOf fresh item.ideas.length sugs).length = _
      simp [aiIdeasOf, List.enum_length]
    · show (item.ideas ++ aiIdeasOf fresh item.ideas.length sugs).take item.ideas.length = _
      exact List.take_left _ _
    · intro i hi
      show (item.ideas ++ aiIdeasOf fresh item.ideas.length sugs)[item.ideas.length + i]? = _
      rw [List.getElem?_append_right (Nat.le_add_right _ _)]
      rw [Nat.add_sub_cancel_left]
      rw [aiIdeasOf, List.getElem?_map, List.getElem?_enum]
      rw [List.getElem?_eq_getElem hi]
      simp [List.getD_eq_getElem?_getD, List.getElem?_eq_getElem hi]

/-- Framework-item examples used by the witnesses for C5, C7 and C10. -/
def wIdea0 : Idea := ⟨"i0", "Alpha", false, true, 0⟩

def wIdea1 : Idea := ⟨"i1", "Beta", true, false, 1⟩

def wIdea2 : Idea := ⟨"i2", "Gamma", false, false, 2⟩

/-- SWOT "strengths" category already holding three ideas. -/
def wSwotItem : FrameworkItem := ⟨"strengths", "Strengths", "#DCFCE7", [wIdea0, wIdea1, wIdea2], "why"⟩

/-- SWOT "weaknesses" category holding no ideas yet. -/
def wEmptyItem : FrameworkItem := ⟨"weaknesses", "Weaknesses", "#FEE2E2", [], ""⟩

/-- Example project whose "swot" framework holds the two items above. -/
def wFwProject : ProjectState :=
  { id := "idF", name := "Fw", lastUpdated := 7, businessDetails := "",
    businessFiles := [], frameworks := setKey (fun _ => []) "swot" [wSwotItem, wEmptyItem] }

/-- Example store with `wFwProject` active. -/
def wFwStore : Store :=
  { projects := [wFwProject], activeProjectId := some "idF" }

/-- Witness for C5: the spec's three-suggestion batch merged into the empty
"weaknesses" category of the active example project. -/
theorem generateIdeas_spec_witness :
    wFwStore.activeProjectId = some "idF" ∧ wFwProject ∈ wFwStore.projects ∧
    (wFwProject.frameworks "swot").findIdx? (fun i => i.id = "weaknesses") = some 1 ∧
    (wFwProject.frameworks "swot")[1]? = some wEmptyItem ∧
    ∃ q ∈ (updateActiveProject 99 (generateIdeasMerge (fun n => toString n) "swot" "weaknesses"
        ["Expand into EU market", "Launch loyalty programme", "Reduce packaging waste"]) wFwStore).projects,
      q.lastUpdated = 99 ∧
      (∀ j, j ≠ 1 → (q.frameworks "swot")[j]? = (wFwProject.frameworks "swot")[j]?) ∧
      ∃ item2, (q.frameworks "swot")[1]? = some item2 ∧
        item2.id = wEmptyItem.id ∧ item2.title = wEmptyItem.title ∧
        item2.justification = wEmptyItem.justification ∧
        item2.ideas.length = wEmptyItem.ideas.length + 3 ∧
        item2.ideas.take wEmptyItem.ideas.length = wEmptyItem.ideas ∧
        (∀ i, i < (3 : Nat) →
          item2.ideas[wEmptyItem.ideas.length + i]? =
            some { id := toString i,
                   text := (["Expand into EU market", "Launch loyalty programme",
                     "Reduce packaging waste"].getD i "") ++ " (AI)",
                   isAiGenerated := true, isSelected := false,
                   order := wEmptyItem.ideas.length + i }) :=
  ⟨rfl, List.mem_singleton.mpr rfl, by decide, by decide,
    generateIdeas_spec 99 (fun n => toString n) "swot" "weaknesses"
      ["Expand into EU market", "Launch loyalty programme", "Reduce packaging waste"]
      wFwStore "idF" wFwProject 1 wEmptyItem rfl (List.mem_singleton.mpr rfl) rfl
      (by decide) (by decide)⟩

/-- The `direction` argument of `moveIdea` (`index.tsx` line 177). -/
inductive Direction where
  | up
  | down
deriving DecidableEq, Repr

/-- The idea-list transformation inside `moveIdea` (`index.tsx` lines
182-188): `findIndex` gives the idea's position (or `-1`), the target index
is one step toward the front for `up` and one step toward the back for
`down`, and the destructuring swap runs only under the JS guard
`targetIdx >= 0 && targetIdx < ideas.length`. -/
def moveIdeaList (ideaId : String) (direction : Direction) (ideas : List Idea) : List Idea :=
  let ideaIdx : Int := jsFindIndex (fun i => i.id = ideaId) ideas
  let targetIdx : Int :=
    match direction with
    | .up => ideaIdx - 1
    | .down => ideaIdx + 1
  if 0 ≤ targetIdx ∧ targetIdx < (ideas.length : Int) then
    (ideas.set ideaIdx.toNat (ideas.getD targetIdx.toNat default)).set targetIdx.toNat (ideas.getD ideaIdx.toNat default)
  else ideas

/-- `moveIdea` (`index.tsx` lines 177-194): the updater passed to
`updateActiveProject`; `items[itemIdx]` is re-stored with the (possibly
swapped) idea list. In JS a missing item index throws; that case is
modelled as returning `p`. -/
def moveIdea (frameworkKey itemId ideaId : String) (direction : Direction)
    (p : ProjectState) : ProjectState :=
  let items := p.frameworks frameworkKey
  let itemIdx := items.findIdx fun i => i.id = itemId
  match items[itemIdx]? with
  | none => p
  | some item =>
    { p with frameworks := setKey p.frameworks frameworkKey (items.set itemIdx { item with ideas := moveIdeaList ideaId direction item.ideas }) }

theorem moveIdea_eq (fk itemId ideaId : String) (dir : Direction)
    (p : ProjectState) (idx : Nat) (item : FrameworkItem)
    (hfind : (p.frameworks fk).findIdx? (fun i => i.id = itemId) = some idx)
    (hitem : (p.frameworks fk)[idx]? = some item) :
    moveIdea fk itemId ideaId dir p =
      { p with frameworks := setKey p.frameworks fk ((p.frameworks fk).set idx { item with ideas := moveIdeaList ideaId dir item.ideas }) } := by
  have hidx : (p.frameworks fk).findIdx (fun i => i.id = itemId) = idx :=
    (List.findIdx?_eq_some_iff_findIdx_eq.mp hfind).2
  simp only [moveIdea, hidx, hitem]

theorem moveIdeaList_up_top (ideaId : String) (ideas : List Idea)
    (hn : ideas.findIdx? (fun i => i.id = ideaId) = some 0) :
    moveIdeaList ideaId .up ideas = ideas := by
  rw [moveIdeaList]
  simp only [jsFindIndex, hn]
  norm_num

theorem moveIdeaList_down_bottom (ideaId : String) (ideas : List Idea) (n : Nat)
    (hn : ideas.findIdx? (fun i => i.id = ideaId) = some n)
    (hlast : n + 1 = ideas.length) :
    moveIdeaList ideaId .down ideas = ideas := by
  rw [moveIdeaList]
  simp only [jsFindIndex, hn]
  rw [if_neg]
  omega

theorem moveIdeaList_up_swap (ideaId : String) (ideas : List Idea) (n : Nat)
    (hn : ideas.findIdx? (fun i => i.id = ideaId) = some n) (h0 : 0 < n) :
    (moveIdeaList ideaId .up ideas)[n - 1]? = ideas[n]? ∧
    (moveIdeaList ideaId .up ideas)[n]? = ideas[n - 1]? ∧
    ∀ j, j ≠ n - 1 → j ≠ n → (moveIdeaList ideaId .up ideas)[j]? = ideas[j]? := by
  have hlen : n < ideas.length := (List.findIdx?_eq_some_iff_findIdx_eq.mp hn).1
  have hswap : moveIdeaList ideaId .up ideas =
      (ideas.set n (ideas.getD (n - 1) default)).set (n - 1) (ideas.getD n default) := by
    rw [moveIdeaList]
    simp only [jsFindIndex, hn]
    rw [if_pos (by constructor <;> omega)]
    have h1 : ((n : Int) - 1).toNat = n - 1 := by omega
    have h2 : ((n : Int)).toNat = n := by omega
    rw [h1, h2]
  have hlen1 : n - 1 < ideas.length := by omega
  refine ⟨?_, ?_, ?_⟩
  · rw [hswap, List.getElem?_set_self (by simp; omega), List.getD_eq_getElem?_getD,
      List.getElem?_eq_getElem hlen]
    rfl
  · rw [hswap, List.getElem?_set_ne (by omega), List.getElem?_set_self hlen,
      List.getD_eq_getElem?_getD, List.getElem?_eq_getElem hlen1]
    rfl
  · intro j hj1 hj2
    rw [hswap, List.getElem?_set_ne (Ne.symm hj1), List.getElem?_set_ne (Ne.symm hj2)]

theorem moveIdeaList_down_swap (ideaId : String) (ideas : List Idea) (n : Nat)
    (hn : ideas.findIdx? (fun i => i.id = ideaId) = some n) (hlt : n + 1 < ideas.length) :
    (moveIdeaList ideaId .down ideas)[n + 1]? = ideas[n]? ∧
    (moveIdeaList ideaId .down ideas)[n]? = ideas[n + 1]? ∧
    ∀ j, j ≠ n → j ≠ n + 1 → (moveIdeaList ideaId .down ideas)[j]? = ideas[j]? := by
  have hlen : n < ideas.length := (List.findIdx?_eq_some_iff_findIdx_eq.mp hn).1
  have hswap : moveIdeaList ideaId .down ideas =
      (ideas.set n (ideas.getD (n + 1) default)).set (n + 1) (ideas.getD n default) := by
    rw [moveIdeaList]
    simp only [jsFindIndex, hn]
    rw [if_pos (by constructor <;> omega)]
    have h1 : ((n : Int) + 1).toNat = n + 1 := by omega
    have h2 : ((n : Int)).toNat = n := by omega
    rw [h1, h2]
  refine ⟨?_, ?_, ?_⟩
  · rw [hswap, List.getElem?_set_self (by simp; omega), List.getD_eq_getElem?_getD,
      List.getElem?_eq_getElem hlen]
    rfl
  · rw [hswap, List.getElem?_set_ne (by omega), List.getElem?_set_self hlen,
      List.getD_eq_getElem?_getD, List.getElem?_eq_getElem hlt]
    rfl
  · intro j hj1 hj2
    rw [hswap, List.getElem?_set_ne (Ne.symm hj2), List.getElem?_set_ne (Ne.symm hj1)]

/-- C7: `moveIdea` swaps the target idea with its immediate neighbour in the
given direction (`up` toward index 0, `down` toward the end), leaves every
other idea in place, and is a no-op - the project is returned unchanged -
when the idea already sits at the boundary in that direction (topmost with
`up`, bottommost with `down`). -/
theorem moveIdea_spec (fk itemId ideaId : String) (dir : Direction)
    (p : ProjectState) (idx : Nat) (item : FrameworkItem) (n : Nat)
    (hfind : (p.frameworks fk).findIdx? (fun i => i.id = itemId) = some idx)
    (hitem : (p.frameworks fk)[idx]? = some item)
    (hn : item.ideas.findIdx? (fun i => i.id = ideaId) = some n) :
    (dir = .up → n = 0 → moveIdea fk itemId ideaId dir p = p) ∧
    (dir = .down → n + 1 = item.ideas.length → moveIdea fk itemId ideaId dir p = p) ∧
    (∀ ideas2, ideas2 = moveIdeaList ideaId dir item.ideas →
      ((moveIdea fk itemId ideaId dir p).frameworks fk)[idx]? = some { item with ideas := ideas2 } ∧
      (∀ j, j ≠ idx → ((moveIdea fk itemId ideaId dir p).frameworks fk)[j]? = (p.frameworks fk)[j]?) ∧
      (dir = .up → 0 < n →
        ideas2[n - 1]? = item.ideas[n]? ∧ ideas2[n]? = item.ideas[n - 1]? ∧
        ∀ j, j ≠ n - 1 → j ≠ n → ideas2[j]? = item.ideas[j]?) ∧
      (dir = .down → n + 1 < item.ideas.length →
        ideas2[n + 1]? = item.ideas[n]? ∧ ideas2[n]? = item.ideas[n + 1]? ∧
        ∀ j, j ≠ n → j ≠ n + 1 → ideas2[j]? = item.ideas[j]?)) := by
  have hlt : idx < (p.frameworks fk).length := (List.getElem?_eq_some.mp hitem).1
  have heq := moveIdea_eq fk itemId ideaId dir p idx item hfind hitem
  have hnoop : moveIdeaList ideaId dir item.ideas = item.ideas →
      moveIdea fk itemId ideaId dir p = p := by
    intro hsame
    rw [heq, hsame]
    have hset : (p.frameworks fk).set idx { item with ideas := item.ideas } = p.frameworks fk :=
      list_set_self _ _ _ hitem
    rw [hset, setKey_self]
  refine ⟨?_, ?_, ?_⟩
  · rintro rfl rfl
    exact hnoop (moveIdeaList_up_top ideaId item.ideas hn)
  · rintro rfl hlast
    exact hnoop (moveIdeaList_down_bottom ideaId item.ideas n hn hlast)
  · rintro ideas2 rfl
    refine ⟨?_, ?_, ?_, ?_⟩
    · rw [heq, frameworks_mk, setKey_same]
      exact List.getElem?_set_self hlt
    · intro j hj
      rw [heq, frameworks_mk, setKey_same]
      exact List.getElem?_set_ne (Ne.symm hj)
    · rintro rfl h0
      exact moveIdeaList_up_swap ideaId item.ideas n hn h0
    · rintro rfl hlt2
      exact moveIdeaList_down_swap ideaId item.ideas n hn hlt2

/-- Witness for C7: in the example project, moving the middle idea of the
"strengths" category down swaps it with the last one; the boundary no-op
implications hold vacuously at this input, and the swap implications are
exercised by the theorem's conclusion. -/
theorem moveIdea_spec_witness :
    (wFwProject.frameworks "swot").findIdx? (fun i => i.id = "strengths") = some 0 ∧
    (wFwProject.frameworks "swot")[0]? = some wSwotItem ∧
    wSwotItem.ideas.findIdx? (fun i => i.id = "i1") = some 1 ∧
    ((Direction.down = .up → (1 : Nat) = 0 →
        moveIdea "swot" "strengths" "i1" .down wFwProject = wFwProject) ∧
     (Direction.down = .down → 1 + 1 = wSwotItem.ideas.length →
        moveIdea "swot" "strengths" "i1" .down wFwProject = wFwProject) ∧
     (∀ ideas2, ideas2 = moveIdeaList "i1" .down wSwotItem.ideas →
       ((moveIdea "swot" "strengths" "i1" .down wFwProject).frameworks "swot")[0]?
           = some { wSwotItem with ideas := ideas2 } ∧
       (∀ j, j ≠ 0 → ((moveIdea "swot" "strengths" "i1" .down wFwProject).frameworks "swot")[j]?
           = (wFwProject.frameworks "swot")[j]?) ∧
       (Direction.down = .up → 0 < 1 →
         ideas2[1 - 1]? = wSwotItem.ideas[1]? ∧ ideas2[1]? = wSwotItem.ideas[1 - 1]? ∧
         ∀ j, j ≠ 1 - 1 → j ≠ 1 → ideas2[j]? = wSwotItem.ideas[j]?) ∧
       (Direction.down = .down → 1 + 1 < wSwotItem.ideas.length →
         ideas2[1 + 1]? = wSwotItem.ideas[1]? ∧ ideas2[1]? = wSwotItem.ideas[1 + 1]? ∧
         ∀ j, j ≠ 1 → j ≠ 1 + 1 → ideas2[j]? = wSwotItem.ideas[j]?))) :=
  ⟨by decide, by decide, by decide,
    moveIdea_spec "swot" "strengths" "i1" .down wFwProject 0 wSwotItem 1
      (by decide) (by decide) (by decide)⟩

/-- The idea a manual add stores (`App.tsx` lines 688-694, `index.tsx`
lines 573-579): human-authored, selected by default, ordered at the end. -/
def manualIdeaOf (freshId text : String) (item : FrameworkItem) : Idea :=
  { id := freshId, text := text, isAiGenerated := false, isSelected := true,
    order := item.ideas.length }

/-- The updater `handleAddIdea` passes to `updateActiveProject` (`App.tsx`
lines 682-699, `index.tsx` lines 569-583): append one idea to the target
item; `if (idx === -1) return prev` is the explicit not-found no-op. -/
def addIdeaUpdater (freshId sectionKey itemId text : String) (p : ProjectState) : ProjectState :=
  let list := p.frameworks sectionKey
  let idx := list.findIdx fun i => i.id = itemId
  match list[idx]? with
  | none => p
  | some item =>
    { p with frameworks := setKey p.frameworks sectionKey (list.set idx { item with ideas := item.ideas ++ [manualIdeaOf freshId text item] }) }

/-- `handleAddIdea` (`App.tsx` lines 678-702, `index.tsx` lines 566-585):
the input is trimmed first and an empty result returns before any store
mutation; otherwise the append runs through `updateActiveProject`. -/
def handleAddIdea (freshId : String) (now : Nat) (sectionKey itemId rawText : String)
    (s : Store) : Store :=
  if jsTrim rawText = "" then s
  else updateActiveProject now (addIdeaUpdater freshId sectionKey itemId (jsTrim rawText)) s

theorem addIdeaUpdater_eq (freshId fk itemId text : String)
    (p : ProjectState) (idx : Nat) (item : FrameworkItem)
    (hfind : (p.frameworks fk).findIdx? (fun i => i.id = itemId) = some idx)
    (hitem : (p.frameworks fk)[idx]? = some item) :
    addIdeaUpdater freshId fk itemId text p =
      { p with frameworks := setKey p.frameworks fk ((p.frameworks fk).set idx { item with ideas := item.ideas ++ [manualIdeaOf freshId text item] }) } := by
  have hidx : (p.frameworks fk).findIdx (fun i => i.id = itemId) = idx :=
    (List.findIdx?_eq_some_iff_findIdx_eq.mp hfind).2
  simp only [addIdeaUpdater, hidx, hitem]

/-- C10: when the manual add-idea input trims to empty the store is returned
completely unchanged (no idea added, `lastUpdated` untouched); otherwise
exactly one idea is appended at the end of the target category's list, with
`isAiGenerated = false`, `isSelected = true` (unlike merged AI suggestions,
which start unselected), order equal to the list's previous length, and no
other category is touched; `lastUpdated` becomes the current clock value. -/
theorem handleAddIdea_spec (freshId : String) (now : Nat) (fk itemId raw : String)
    (s : Store) (aid : String) (p : ProjectState) (idx : Nat) (item : FrameworkItem)
    (hact : s.activeProjectId = some aid) (hp : p ∈ s.projects) (hid : p.id = aid)
    (hfind : (p.frameworks fk).findIdx? (fun i => i.id = itemId) = some idx)
    (hitem : (p.frameworks fk)[idx]? = some item) :
    (jsTrim raw = "" → handleAddIdea freshId now fk itemId raw s = s) ∧
    (jsTrim raw ≠ "" →
      ∃ q ∈ (handleAddIdea freshId now fk itemId raw s).projects,
        q.lastUpdated = now ∧
        (∀ j, j ≠ idx → (q.frameworks fk)[j]? = (p.frameworks fk)[j]?) ∧
        (q.frameworks fk)[idx]? = some { item with ideas := item.ideas ++ [manualIdeaOf freshId (jsTrim raw) item] } ∧
        (manualIdeaOf freshId (jsTrim raw) item).isAiGenerated = false ∧
        (manualIdeaOf freshId (jsTrim raw) item).isSelected = true ∧
        (manualIdeaOf freshId (jsTrim raw) item).order = item.ideas.length ∧
        (manualIdeaOf freshId (jsTrim raw) item).text = jsTrim raw) := by
  have hlt : idx < (p.frameworks fk).length := (List.getElem?_eq_some.mp hitem).1
  have hupd := addIdeaUpdater_eq freshId fk itemId (jsTrim raw) p idx item hfind hitem
  constructor
  · intro h
    rw [handleAddIdea, if_pos h]
  · intro h
    rw [handleAddIdea, if_neg h]
    refine ⟨{ addIdeaUpdater freshId fk itemId (jsTrim raw) p with lastUpdated := now },
      ?_, rfl, ?_, ?_, rfl, rfl, rfl, rfl⟩
    · simp only [updateActiveProject, hact]
      have hfun : ({ addIdeaUpdater freshId fk itemId (jsTrim raw) p with lastUpdated := now } : ProjectState)
          = (fun r => if r.id = aid then { addIdeaUpdater freshId fk itemId (jsTrim raw) r with lastUpdated := now } else r) p := by
        simp [hid]
      rw [hfun]
      exact List.mem_map_of_mem _ hp
    · intro j hj
      show ((addIdeaUpdater freshId fk itemId (jsTrim raw) p).frameworks fk)[j]? = _
      rw [hupd, frameworks_mk, setKey_same]
      exact List.getElem?_set_ne (Ne.symm hj)
    · show ((addIdeaUpdater freshId fk itemId (jsTrim raw) p).frameworks fk)[idx]? = _
      rw [hupd, frameworks_mk, setKey_same]
      exact List.getElem?_set_self hlt

/-- Witness for C10: adding "  New point  " to the "strengths" category of
the active example project. -/
theorem handleAddIdea_spec_witness :
    wFwStore.activeProjectId = some "idF" ∧ wFwProject ∈ wFwStore.projects ∧
    (wFwProject.frameworks "swot").findIdx? (fun i => i.id = "strengths") = some 0 ∧
    (wFwProject.frameworks "swot")[0]? = some wSwotItem ∧
    jsTrim "  New point  " ≠ "" ∧
    ∃ q ∈ (handleAddIdea "fid9" 123 "swot" "strengths" "  New point  " wFwStore).projects,
      q.lastUpdated = 123 ∧
      (∀ j, j ≠ 0 → (q.frameworks "swot")[j]? = (wFwProject.frameworks "swot")[j]?) ∧
      (q.frameworks "swot")[0]? = some { wSwotItem with ideas := wSwotItem.ideas ++ [manualIdeaOf "fid9" (jsTrim "  New point  ") wSwotItem] } ∧
      (manualIdeaOf "fid9" (jsTrim "  New point  ") wSwotItem).isAiGenerated = false ∧
      (manualIdeaOf "fid9" (jsTrim "  New point  ") wSwotItem).isSelected = true ∧
      (manualIdeaOf "fid9" (jsTrim "  New point  ") wSwotItem).order = wSwotItem.ideas.length ∧
      (manualIdeaOf "fid9" (jsTrim "  New point  ") wSwotItem).text = jsTrim "  New point  " :=
  ⟨rfl, List.mem_singleton.mpr rfl, by decide, by decide, by decide,
    (handleAddIdea_spec "fid9" 123 "swot" "strengths" "  New point  " wFwStore "idF"
      wFwProject 0 wSwotItem rfl (List.mem_singleton.mpr rfl) rfl (by decide) (by decide)).2
      (by decide)⟩

/-- `loadProjects` (`storageService.ts` lines 24-55): returns `[]` when the
Firestore handle is not configured; otherwise races `getDocs` against a
10000 ms timeout - a rejection (fetch failure, modelled as `none`) or a
fetch that has not resolved before the timeout is caught and yields `[]`;
a successful fetch is sorted by `lastUpdated` descending
(`(a, b) => b.lastUpdated - a.lastUpdated`). -/
def loadProjects (dbConfigured : Bool) (fetchMs : Nat)
    (fetchResult : Option (List ProjectState)) : List ProjectState :=
  if dbConfigured = false then []
  else
    match fetchResult with
    | none => []
    | some docs =>
      if 10000 ≤ fetchMs then []
      else docs.mergeSort fun a b => decide (b.lastUpdated ≤ a.lastUpdated)

/-- C8: `loadProjects` returns the user's projects sorted by `lastUpdated`
descending (newest first) - a permutation of the fetched documents - and
returns an empty list, never an error, whenever the remote store is
unconfigured, the fetch fails, or the fetch does not resolve inside the
10-second bounded wait. -/
theorem loadProjects_spec (fetchMs : Nat) (docs : List ProjectState) :
    (∀ (fm : Nat) (fr : Option (List ProjectState)), loadProjects false fm fr = []) ∧
    loadProjects true fetchMs none = [] ∧
    (10000 ≤ fetchMs → loadProjects true fetchMs (some docs) = []) ∧
    (fetchMs < 10000 →
      (loadProjects true fetchMs (some docs)).Perm docs ∧
      (loadProjects true fetchMs (some docs)).Pairwise
        (fun a b => b.lastUpdated ≤ a.lastUpdated)) := by
  refine ⟨fun fm fr => by simp [loadProjects], by simp [loadProjects],
    fun h => by simp [loadProjects, h], fun h => ?_⟩
  have hne : ¬ (10000 ≤ fetchMs) := by omega
  have hload : loadProjects true fetchMs (some docs)
      = docs.mergeSort (fun a b => decide (b.lastUpdated ≤ a.lastUpdated)) := by
    simp [loadProjects, hne]
  rw [hload]
  refine ⟨List.mergeSort_perm docs _, ?_⟩
  have htrans : ∀ a b c : ProjectState,
      decide (b.lastUpdated ≤ a.lastUpdated) = true →
      decide (c.lastUpdated ≤ b.lastUpdated) = true →
      decide (c.lastUpdated ≤ a.lastUpdated) = true := by
    intro a b c h1 h2
    simp only [decide_eq_true_eq] at h1 h2 ⊢
    omega
  have htotal : ∀ a b : ProjectState,
      (decide (b.lastUpdated ≤ a.lastUpdated) || decide (a.lastUpdated ≤ b.lastUpdated)) = true := by
    intro a b
    simp only [Bool.or_eq_true, decide_eq_true_eq]
    omega
  have hs := List.sorted_mergeSort htrans htotal docs
  exact hs.imp fun hab => by simpa using hab

/-- Witness for C8: a two-project fetch resolving in 5 ms comes back as a
sorted permutation. -/
theorem loadProjects_spec_witness :
    (5 : Nat) < 10000 ∧
    ((loadProjects true 5 (some [wProject, wProjectB])).Perm [wProject, wProjectB] ∧
     (loadProjects true 5 (some [wProject, wProjectB])).Pairwise
       (fun a b => b.lastUpdated ≤ a.lastUpdated)) :=
  ⟨by decide, (loadProjects_spec 5 [wProject, wProjectB]).2.2.2 (by decide)⟩

/-- A Firestore document: its top-level fields with values of type `V`. -/
abbrev FsDoc (V : Type) := List (String × V)

/-- JS-side field membership test, used to model Firestore's merge rule. -/
def hasField {V : Type} (d : FsDoc V) (k : String) : Bool :=
  d.any fun kv => kv.1 = k

/-- Firestore `setDoc(ref, data)` with no options, as called by the client
`saveProject` (`storageService.ts` line 68): replaces the whole document. -/
def setDocReplace {V : Type} (payload : FsDoc V) (old : Option (FsDoc V)) : Option (FsDoc V) :=
  some payload

/-- Firestore `ref.set(data, { merge: true })`, as called by the server
route (`server/index.js` line 195): payload fields overwrite, remote-only
fields survive. -/
def setDocMerge {V : Type} (payload : FsDoc V) (old : Option (FsDoc V)) : Option (FsDoc V) :=
  some ((old.getD []).filter (fun kv => ! hasField payload kv.1) ++ payload)

/-- `saveProject` (`storageService.ts` lines 60-73): a warning-only no-op
when Firestore is unconfigured, otherwise `setDoc` without merge. -/
def saveProject {V : Type} (dbConfigured : Bool) (payload : FsDoc V)
    (old : Option (FsDoc V)) : Option (FsDoc V) :=
  if dbConfigured then setDocReplace payload old else old

/-- `POST /api/v1/projects/:userId` (`server/index.js` lines 176-211): the
project document is upserted with `{ merge: true }`. -/
def serverSaveProject {V : Type} (payload : FsDoc V) (old : Option (FsDoc V)) :
    Option (FsDoc V) :=
  setDocMerge payload old

/-- Counterexample to C9 as stated: the client-side `saveProject` does not
merge into existing remote fields - it replaces the document. A remote
document carrying an extra field "extra" loses that field after the save,
whereas the merge semantics the claim asserts (and which the server route
actually implements) would preserve it; the two writes produce different
remote states on the same input. -/
theorem saveProject_replaces_cex :
    saveProject true [("name", "New")] (some [("extra", "keep"), ("name", "Old")])
      = some [("name", "New")] ∧
    ((saveProject true [("name", "New")]
        (some [("extra", "keep"), ("name", "Old")])).getD []).lookup "extra" = none ∧
    serverSaveProject [("name", "New")] (some [("extra", "keep"), ("name", "Old")])
      = some [("extra", "keep"), ("name", "New")] ∧
    serverSaveProject [("name", "New")] (some [("extra", "keep"), ("name", "Old")])
      ≠ saveProject true [("name", "New")] (some [("extra", "keep"), ("name", "Old")]) := by
  decide

/-- C9 amended: both save paths are idempotent upserts - saving the same
payload twice leaves the remote document exactly as saving it once, and
saving into an absent document creates it - but only the server's POST
route merges into existing remote fields; the client `saveProject` used by
the app replaces the full document. -/
theorem saveProject_idempotent_upsert {V : Type} (cfg : Bool) (payload : FsDoc V)
    (old : Option (FsDoc V)) :
    saveProject cfg payload (saveProject cfg payload old) = saveProject cfg payload old ∧
    serverSaveProject payload (serverSaveProject payload old) = serverSaveProject payload old ∧
    saveProject true payload none = some payload ∧
    serverSaveProject payload none = some payload := by
  have hself : ∀ (pl : FsDoc V), pl.filter (fun kv => ! hasField pl kv.1) = [] := by
    intro pl
    rw [List.filter_eq_nil_iff]
    intro kv hkv
    simp only [hasField, Bool.not_eq_true', Bool.not_eq_false, List.any_eq_true,
      decide_eq_true_eq]
    exact ⟨kv, hkv, rfl⟩
  refine ⟨?_, ?_, ?_, ?_⟩
  · cases cfg <;> simp [saveProject, setDocReplace]
  · simp [serverSaveProject, setDocMerge, List.filter_append, hself]
  · simp [saveProject, setDocReplace]
  · simp [serverSaveProject, setDocMerge, hself]

end StrategySuite
